import Mathlib

/-!
Shallow embedding of `src/mapper.rs` of the proguard remapping library: the
mapper index (`ProguardMapper.new`), class remapping (`remap_class`), frame
expansion (`remap_frame`, whose iterator is denoted by the list of frames it
yields) and stack-trace rewriting (`remap_stacktrace`).  Rust `usize` values
are modelled as `Nat` (the one subtraction the code performs is analysed
explicitly), borrowed `&str` / `Cow<str>` as `String`, `HashMap` / `BTreeMap`
as association lists with the same lookup and insert-replace semantics, and
the record stream as a list.  Types that the repository declares outside
`mapper.rs` (`StackFrame`, `ProguardRecord`, `LineMapping`) are modelled from
the spec, as marked on their doc comments.
-/

/-- Modelled from the spec (§3, §6; `StackFrame` is declared in the
repository outside `src/`): a stack frame value with class, method, optional
source file and 1-based line.  The Rust field `class` is a Lean keyword and
is called `cls` here. -/
structure StackFrame where
  cls : String
  method : String
  file : Option String
  line : Nat
  deriving DecidableEq

/-- Modelled from the spec (§6; declared in the repository outside `src/`):
the line-number part of a Method record, with `startline` and `endline`
always present and the two original line numbers each independently
optional. -/
structure LineMapping where
  startline : Nat
  endline : Nat
  original_startline : Option Nat
  original_endline : Option Nat
  deriving DecidableEq

/-- Modelled from the spec (§6; declared in the repository outside `src/`):
one parsed mapping record — a Class record, a Method record (with optional
foreign original class and optional line mapping; its remaining fields are
ignored by the construction) or any other kind of record. -/
inductive ProguardRecord where
  | Class (original obfuscated : String)
  | Method (original obfuscated : String) (original_class : Option String)
      (line_mapping : Option LineMapping)
  | Other
  deriving DecidableEq

/-- Source `MemberMapping` (mapper.rs lines 8-16). -/
structure MemberMapping where
  startline : Nat
  endline : Nat
  original_class : Option String
  original : String
  original_startline : Nat
  original_endline : Option Nat
  deriving DecidableEq

/-- Lookup in an association list: the model of `HashMap::get` and
`BTreeMap::get`. -/
def mapLookup {α : Type} (k : String) : List (String × α) → Option α
  | [] => none
  | (k', v) :: rest => if k' = k then some v else mapLookup k rest

/-- Insert or replace: the model of `HashMap::insert`. -/
def insertMap {α : Type} (k : String) (v : α) : List (String × α) → List (String × α)
  | [] => [(k, v)]
  | (k', v') :: rest => if k' = k then (k, v) :: rest else (k', v') :: insertMap k v rest

/-- Source `ClassMapping` (mapper.rs lines 18-23); the `BTreeMap` of members
is modelled as an association list with the same lookup semantics (the code
never iterates over that map, so key order is irrelevant). -/
structure ClassMapping where
  original : String
  obfuscated : String
  members : List (String × List MemberMapping)
  deriving DecidableEq

/-- Source `ProguardMapper` (mapper.rs lines 91-94). -/
structure ProguardMapper where
  classes : List (String × ClassMapping)
  deriving DecidableEq

/-- Model of `class.members.entry(obfuscated).or_insert_with(Vec::new)
.push(member)` (mapper.rs lines 149-157): append `m` at the end of the
vector stored under `k`, creating the vector when the key is missing. -/
def pushMember (k : String) (m : MemberMapping) :
    List (String × List MemberMapping) → List (String × List MemberMapping)
  | [] => [(k, [m])]
  | (k', v) :: rest =>
    if k' = k then (k', v ++ [m]) :: rest else (k', v) :: pushMember k m rest

/-- The `MemberMapping` one Method record produces (mapper.rs lines
134-157): the two `map_or` chains deriving the obfuscated range and the
original range from the optional `line_mapping`. -/
def memberFromMethod (original_class : Option String) (original : String)
    (line_mapping : Option LineMapping) : MemberMapping :=
  let p : Nat × Nat :=
    match line_mapping with
    | none => (0, 0)
    | some lm => (lm.startline, lm.endline)
  let q : Nat × Option Nat :=
    match line_mapping with
    | none => (0, none)
    | some lm =>
      match lm.original_startline with
      | some os => (os, lm.original_endline)
      | none => (lm.startline, some lm.endline)
  { startline := p.1, endline := p.2, original_class := original_class,
    original := original, original_startline := q.1, original_endline := q.2 }

/-- One iteration of the construction loop of `ProguardMapper::new`
(mapper.rs lines 113-161).  The accumulator is (finished classes, current
class); the sentinel current class has empty `original`.  A Class record
flushes the current class (when non-sentinel) and starts a fresh one, a
Method record appends a member under its obfuscated name, anything else is
ignored. -/
def step (acc : List (String × ClassMapping) × ClassMapping) :
    ProguardRecord → List (String × ClassMapping) × ClassMapping
  | ProguardRecord.Class original obfuscated =>
    (if acc.2.original = "" then acc.1 else insertMap acc.2.obfuscated acc.2 acc.1,
     { original := original, obfuscated := obfuscated, members := [] })
  | ProguardRecord.Method original obfuscated original_class line_mapping =>
    (acc.1,
     { original := acc.2.original, obfuscated := acc.2.obfuscated,
       members := pushMember obfuscated
         (memberFromMethod original_class original line_mapping) acc.2.members })
  | ProguardRecord.Other => acc

/-- The final flush of `ProguardMapper::new` (mapper.rs lines 162-166):
insert the current class unless it is still the sentinel, and wrap the
table. -/
def flushClass (acc : List (String × ClassMapping) × ClassMapping) : ProguardMapper :=
  ⟨if acc.2.original = "" then acc.1 else insertMap acc.2.obfuscated acc.2 acc.1⟩

/-- Source `ProguardMapper::new` (mapper.rs lines 105-167): fold the record
stream — parse failures dropped by `filter_map(Result::ok)` — through the
loop and flush the final current class when it is not the sentinel. -/
def ProguardMapper.new (mapping : List (Except Unit ProguardRecord)) : ProguardMapper :=
  flushClass ((mapping.filterMap Except.toOption).foldl step
    ([], { original := "", obfuscated := "", members := [] }))

/-- The skip test of the member loop (mapper.rs lines 50-54), recorded
positively: `true` exactly when the member is not skipped for `line`. -/
def matchPred (line : Nat) (m : MemberMapping) : Bool :=
  decide (¬ (m.endline > 0 ∧ (line < m.startline ∨ line > m.endline)))

/-- The frame one yield of `RemappedFrameIter::next` builds from a matching
member (mapper.rs lines 55-78). -/
def remapMember (frame : StackFrame) (member : MemberMapping) : StackFrame :=
  { cls :=
      match member.original_class with
      | some c => c
      | none => frame.cls
  , method := member.original
  , file :=
      match member.original_class with
      | some _ => none
      | none => frame.file
  , line :=
      match member.original_endline with
      | none => member.original_startline
      | some _ => member.original_startline + frame.line - member.startline }

/-- Every frame the iterator `RemappedFrameIter` yields, in order
(mapper.rs lines 44-83): scan the remaining members, skipping the ones the
skip test rejects. -/
def remapMembers (frame : StackFrame) : List MemberMapping → List StackFrame
  | [] => []
  | member :: rest =>
    if matchPred frame.line member then
      remapMember frame member :: remapMembers frame rest
    else
      remapMembers frame rest

/-- Source `ProguardMapper::remap_class` (mapper.rs lines 183-185). -/
def ProguardMapper.remap_class (self : ProguardMapper) (cls : String) : Option String :=
  (mapLookup cls self.classes).map (fun c => c.original)

/-- Source `ProguardMapper::remap_frame` (mapper.rs lines 194-203): look up
the class, then the method; on success set the working frame's class to the
class's original name and yield the matching members, otherwise yield
nothing. -/
def ProguardMapper.remap_frame (self : ProguardMapper) (frame : StackFrame) :
    List StackFrame :=
  match mapLookup frame.cls self.classes with
  | some cm =>
    match mapLookup frame.method cm.members with
    | some members => remapMembers { frame with cls := cm.original } members
    | none => []
  | none => []

/-- Model of `std::fmt::Error`. -/
structure FmtError

/-- Modelled from the spec (§4.4, §7): the output sink of
`remap_stacktrace` is an in-memory string whose formatted writes append and
never fail (`fmt::Write` for `String`); `writelnStr` is one `writeln!`
call, appending the text and one line terminator. -/
def writelnStr (buf s : String) : Except FmtError String :=
  Except.ok (buf ++ s ++ "\n")

/-- The frame line `remap_stacktrace` writes (mapper.rs lines 217-226):
four spaces, `at `, class, `.`, method, `(`, the file or `<unknown>`, `:`,
the decimal line, `)`. -/
def formatFrame (f : StackFrame) : String :=
  "    at " ++ f.cls ++ "." ++ f.method ++ "(" ++ (f.file.getD "<unknown>") ++
    ":" ++ toString f.line ++ ")"

/-- One line of `remap_stacktrace` (mapper.rs lines 209-227): unrecognized
lines are written verbatim, a recognized frame with an empty expansion falls
back to the original line, and a non-empty expansion writes one formatted
line per yielded frame.  The external frame parser is the parameter `tp`. -/
def remapStacktraceLine (self : ProguardMapper) (tp : String → Option StackFrame)
    (buf line : String) : Except FmtError String :=
  match tp line with
  | none => writelnStr buf line
  | some frame =>
    match self.remap_frame frame with
    | [] => writelnStr buf line
    | frames => frames.foldlM (fun b f => writelnStr b (formatFrame f)) buf

/-- Model of Rust `str::lines` (used at mapper.rs line 208): split at
newline characters, the final line ending optional, and strip one carriage
return at the end of every segment that was terminated by a newline. -/
def rustLinesAux : List String → List String
  | [] => []
  | [last] => if last = "" then [] else [last]
  | l :: rest => (if l.endsWith "\r" then l.dropRight 1 else l) :: rustLinesAux rest

/-- The list of lines Rust `input.lines()` iterates over. -/
def rustLines (s : String) : List String :=
  rustLinesAux (s.splitOn "\n")

/-- Source `ProguardMapper::remap_stacktrace` (mapper.rs lines 206-231),
parameterized by the external frame parser `tp` (`StackFrame::try_parse`):
fold the input's lines through the line rewriter, starting from the empty
output string, propagating the sink's error as the code's `?` does. -/
def ProguardMapper.remap_stacktrace (self : ProguardMapper)
    (tp : String → Option StackFrame) (input : String) : Except FmtError String :=
  (rustLines input).foldlM (remapStacktraceLine self tp) ""

/-- Concatenation of a list of already-terminated lines. -/
def concatLines : List String → String
  | [] => ""
  | s :: rest => s ++ concatLines rest

/-- Written after the spec's words (§4.4 steps 1-3 and §6's emitted-line
format), for comparison with `remap_stacktrace`: what one input line
contributes to the output.  The line itself verbatim plus one terminator
when the external parser rejects it or when its expansion is empty, else
one canonical `    at class.method(file:line)` line per expanded frame,
with the literal `<unknown>` substituted for an absent file. -/
def renderLineSpec (self : ProguardMapper) (tp : String → Option StackFrame)
    (line : String) : String :=
  match tp line with
  | none => line ++ "\n"
  | some frame =>
    match self.remap_frame frame with
    | [] => line ++ "\n"
    | frames =>
      concatLines (frames.map (fun f =>
        "    at " ++ f.cls ++ "." ++ f.method ++ "(" ++
          (match f.file with
           | some file => file
           | none => "<unknown>") ++ ":" ++ toString f.line ++ ")" ++ "\n"))

/-- A record is a Class record. -/
def isClassRecord : ProguardRecord → Bool
  | ProguardRecord.Class _ _ => true
  | _ => false

/-- A record list with no Class record: the body of one class segment of the
stream. -/
def methodsOnly (rs : List ProguardRecord) : Bool :=
  rs.all (fun r => !isClassRecord r)

/-- The member table a list of Method records accumulates, in stream order
(what the construction loop does to the current class over one segment). -/
def membersFold : List (String × List MemberMapping) → List ProguardRecord →
    List (String × List MemberMapping)
  | acc, [] => acc
  | acc, ProguardRecord.Method o ob oc lm :: rest =>
    membersFold (pushMember ob (memberFromMethod oc o lm) acc) rest
  | acc, ProguardRecord.Class _ _ :: rest => membersFold acc rest
  | acc, ProguardRecord.Other :: rest => membersFold acc rest

/-- Record stream of the spec's scenario S1: the class-only
ArchTaskExecutor mapping. -/
def archRecords : List (Except Unit ProguardRecord) :=
  [Except.ok (ProguardRecord.Class "android.arch.core.executor.ArchTaskExecutor" "a.a.a.a.c")]

/-- The mapper scenario S1 builds. -/
def archMapper : ProguardMapper := ProguardMapper.new archRecords

/-- Witness fixture after the spec's scenario S2: a plain single-range
member with a line shift. -/
def wMember : MemberMapping :=
  { startline := 4, endline := 4, original_class := none, original := "void bar()",
    original_startline := 12, original_endline := some 12 }

/-- Witness fixture: the class entry holding `wMember` under method `c`. -/
def wClassM : ClassMapping :=
  { original := "com.Foo", obfuscated := "a.b", members := [("c", [wMember])] }

/-- Witness fixture: the index holding `wClassM` under `a.b`. -/
def wMapper : ProguardMapper := ⟨[("a.b", wClassM)]⟩

/-- Witness fixture: the S2 input frame. -/
def wFrame : StackFrame := { cls := "a.b", method := "c", file := some "Foo.java", line := 4 }

/-- Witness fixture after the spec's scenario S4: an inlined member from a
foreign class. -/
def wfMember : MemberMapping :=
  { startline := 20, endline := 20, original_class := some "com.Helper",
    original := "void helper()", original_startline := 5, original_endline := none }

/-- Witness fixture: the class entry holding `wfMember` under method `c`. -/
def wfClassM : ClassMapping :=
  { original := "com.Foo", obfuscated := "a.b", members := [("c", [wfMember])] }

/-- Witness fixture: the index holding `wfClassM` under `a.b`. -/
def wfMapper : ProguardMapper := ⟨[("a.b", wfClassM)]⟩

/-- Witness fixture: the S4 input frame. -/
def wfFrame : StackFrame := { cls := "a.b", method := "c", file := some "Foo.java", line := 20 }

/-- Record stream exercising a foreign-class member whose original range is
present — the mapping line `20:20:void com.Helper.helper():5:5 -> c`
inside class `com.Foo -> a.b`. -/
def cexRecords : List (Except Unit ProguardRecord) :=
  [Except.ok (ProguardRecord.Class "com.Foo" "a.b"),
   Except.ok (ProguardRecord.Method "void helper()" "c" (some "com.Helper")
     (some { startline := 20, endline := 20, original_startline := some 5,
             original_endline := some 5 }))]

/-- The mapper `cexRecords` builds. -/
def cexMapper : ProguardMapper := ProguardMapper.new cexRecords

/-- The member `cexRecords` stores under `("a.b", "c")`. -/
def cexMember : MemberMapping :=
  { startline := 20, endline := 20, original_class := some "com.Helper",
    original := "void helper()", original_startline := 5, original_endline := some 5 }

/-- The input frame hitting `cexMember`. -/
def cexFrame : StackFrame := { cls := "a.b", method := "c", file := some "Foo.java", line := 20 }

/-- A stream with two Class records for the same obfuscated name `c`: the
first class's segment is `ms1`, the second's `ms2`. -/
def doubledStream (o1 o2 c : String) (ms1 ms2 : List ProguardRecord) :
    List ProguardRecord :=
  [ProguardRecord.Class o1 c] ++ ms1 ++ [ProguardRecord.Class o2 c] ++ ms2

/-- Witness fixture: the second segment used for the overwrite witness. -/
def w7ms2 : List ProguardRecord := [ProguardRecord.Method "void run()" "mm" none none]

/-! Helper lemmas shared by several claims. -/

theorem matchPred_true_iff (L : Nat) (m : MemberMapping) :
    matchPred L m = true ↔ (m.endline = 0 ∨ (m.startline ≤ L ∧ L ≤ m.endline)) := by
  simp only [matchPred, decide_eq_true_eq]
  omega

theorem remapMembers_eq_filter_map (frame : StackFrame) (ms : List MemberMapping) :
    remapMembers frame ms
      = (ms.filter (fun m => matchPred frame.line m)).map (remapMember frame) := by
  induction ms with
  | nil => rfl
  | cons m rest ih =>
    by_cases h : matchPred frame.line m = true
    · simp [remapMembers, List.filter_cons, h, ih]
    · simp [remapMembers, List.filter_cons, h, ih]

theorem remapMembers_ne_nil_iff (frame : StackFrame) (ms : List MemberMapping) :
    remapMembers frame ms ≠ [] ↔ ∃ m ∈ ms, matchPred frame.line m = true := by
  rw [remapMembers_eq_filter_map, Ne, List.map_eq_nil_iff, List.filter_eq_nil_iff]
  push_neg
  simp

theorem remap_frame_eq (self : ProguardMapper) (frame : StackFrame)
    (cm : ClassMapping) (ms : List MemberMapping)
    (hc : mapLookup frame.cls self.classes = some cm)
    (hm : mapLookup frame.method cm.members = some ms) :
    self.remap_frame frame = remapMembers { frame with cls := cm.original } ms := by
  unfold ProguardMapper.remap_frame
  simp only [hc, hm]

theorem mapLookup_pushMember_self (k : String) (m : MemberMapping)
    (ms : List (String × List MemberMapping)) :
    mapLookup k (pushMember k m ms) = some (((mapLookup k ms).getD []) ++ [m]) := by
  induction ms with
  | nil => simp [pushMember, mapLookup]
  | cons p rest ih =>
    obtain ⟨k', v⟩ := p
    by_cases h : k' = k
    · subst h; simp [pushMember, mapLookup]
    · simp [pushMember, mapLookup, h, ih]

theorem mapLookup_pushMember_ne (k q : String) (hq : q ≠ k) (m : MemberMapping)
    (ms : List (String × List MemberMapping)) :
    mapLookup q (pushMember k m ms) = mapLookup q ms := by
  have hkq : ¬ (k = q) := fun h => hq h.symm
  induction ms with
  | nil => simp [pushMember, mapLookup, hkq]
  | cons p rest ih =>
    obtain ⟨k', v⟩ := p
    by_cases h : k' = k
    · subst h
      simp [pushMember, mapLookup, hkq]
    · by_cases h2 : k' = q
      · simp [pushMember, mapLookup, h, h2, hq]
      · simp [pushMember, mapLookup, h, h2, ih]

theorem mapLookup_insertMap_self {α : Type} (k : String) (v : α)
    (l : List (String × α)) : mapLookup k (insertMap k v l) = some v := by
  induction l with
  | nil => simp [insertMap, mapLookup]
  | cons p rest ih =>
    obtain ⟨k', w⟩ := p
    by_cases h : k' = k
    · subst h; simp [insertMap, mapLookup]
    · simp [insertMap, mapLookup, h, ih]

theorem foldl_step_methodsOnly (rs : List ProguardRecord) :
    ∀ (classes : List (String × ClassMapping)) (cls : ClassMapping),
      methodsOnly rs = true →
      rs.foldl step (classes, cls)
        = (classes, ⟨cls.original, cls.obfuscated, membersFold cls.members rs⟩) := by
  induction rs with
  | nil =>
    intro classes cls _
    cases cls
    rfl
  | cons r rest ih =>
    intro classes cls h
    simp only [methodsOnly, List.all_cons, Bool.and_eq_true, Bool.not_eq_true'] at h
    obtain ⟨hr, hrest⟩ := h
    cases r with
    | Class o ob => simp [isClassRecord] at hr
    | Method o ob oc lm =>
      rw [List.foldl_cons]
      rw [ih _ _ hrest]
      rfl
    | Other =>
      rw [List.foldl_cons]
      rw [ih _ _ hrest]
      rfl

theorem filterMap_toOption_map_ok (rs : List ProguardRecord) :
    (rs.map (Except.ok (ε := Unit))).filterMap Except.toOption = rs := by
  rw [List.filterMap_map]
  have h : (Except.toOption ∘ (Except.ok (ε := Unit)))
      = (some : ProguardRecord → Option ProguardRecord) := by
    funext r
    rfl
  rw [h, List.filterMap_some]

theorem writelnStr_fold_frames (frames : List StackFrame) (b : String) :
    frames.foldlM (fun b f => writelnStr b (formatFrame f)) b
      = Except.ok (b ++ concatLines (frames.map (fun f => formatFrame f ++ "\n"))) := by
  induction frames generalizing b with
  | nil => simp [List.foldlM_nil, concatLines, String.append_empty]; rfl
  | cons f rest ih =>
    rw [List.foldlM_cons]
    show (writelnStr b (formatFrame f)) >>= _ = _
    rw [writelnStr]
    show rest.foldlM (fun b f => writelnStr b (formatFrame f)) (b ++ formatFrame f ++ "\n") = _
    rw [ih]
    simp [concatLines, String.append_assoc]

theorem remapStacktraceLine_eq (self : ProguardMapper) (tp : String → Option StackFrame)
    (buf line : String) :
    remapStacktraceLine self tp buf line
      = Except.ok (buf ++ renderLineSpec self tp line) := by
  unfold remapStacktraceLine renderLineSpec
  cases htp : tp line with
  | none => simp [writelnStr, String.append_assoc]
  | some frame =>
    cases hr : self.remap_frame frame with
    | nil => simp [hr, writelnStr, String.append_assoc]
    | cons f rest =>
      simp only [hr]
      rw [writelnStr_fold_frames]
      have hfmt : (fun g => formatFrame g ++ "\n")
          = (fun g : StackFrame =>
              "    at " ++ g.cls ++ "." ++ g.method ++ "(" ++
                (match g.file with
                 | some file => file
                 | none => "<unknown>") ++ ":" ++ toString g.line ++ ")" ++ "\n") := by
        funext g
        cases g with
        | mk c mth fl ln => cases fl <;> rfl
      rw [← hfmt]

theorem remap_stacktrace_eq_ok (self : ProguardMapper)
    (tp : String → Option StackFrame) (input : String) :
    self.remap_stacktrace tp input
      = Except.ok (concatLines ((rustLines input).map (renderLineSpec self tp))) := by
  unfold ProguardMapper.remap_stacktrace
  have main : ∀ (ls : List String) (acc : String),
      ls.foldlM (remapStacktraceLine self tp) acc
        = Except.ok (acc ++ concatLines (ls.map (renderLineSpec self tp))) := by
    intro ls
    induction ls with
    | nil =>
      intro acc
      simp [List.foldlM_nil, concatLines, String.append_empty]
      rfl
    | cons l rest ih =>
      intro acc
      rw [List.foldlM_cons]
      show (remapStacktraceLine self tp acc l) >>= _ = _
      rw [remapStacktraceLine_eq]
      show rest.foldlM (remapStacktraceLine self tp) (acc ++ renderLineSpec self tp l) = _
      rw [ih]
      simp [concatLines, String.append_assoc]
  rw [main]
  rw [String.empty_append]

/-! Claim theorems. -/

/-- Claim C2: `remap_frame` yields at least one expanded frame exactly when
the frame's obfuscated class is in the index, its obfuscated method is in
that class's member table, and some member mapping `m` in the vector under
them has `obf_endline = 0` (wildcard — any line matches) or
`obf_startline ≤ L ≤ obf_endline`; otherwise it yields the empty
sequence. -/
theorem remap_frame_nonempty_iff :
    ∀ (self : ProguardMapper) (frame : StackFrame),
      self.remap_frame frame ≠ [] ↔
        ∃ cm ms, mapLookup frame.cls self.classes = some cm ∧
          mapLookup frame.method cm.members = some ms ∧
          ∃ m, m ∈ ms ∧
            (m.endline = 0 ∨ (m.startline ≤ frame.line ∧ frame.line ≤ m.endline)) := by
  intro self frame
  constructor
  · intro hne
    unfold ProguardMapper.remap_frame at hne
    cases hc : mapLookup frame.cls self.classes with
    | none => simp [hc] at hne
    | some cm =>
      cases hm : mapLookup frame.method cm.members with
      | none => simp [hc, hm] at hne
      | some ms =>
        simp only [hc, hm] at hne
        rw [remapMembers_ne_nil_iff] at hne
        obtain ⟨m, hmem, hmatch⟩ := hne
        exact ⟨cm, ms, rfl, hm, m, hmem, (matchPred_true_iff frame.line m).mp hmatch⟩
  · rintro ⟨cm, ms, hcm, hms, m, hmem, hcond⟩
    rw [remap_frame_eq self frame cm ms hcm hms, remapMembers_ne_nil_iff]
    exact ⟨m, hmem, (matchPred_true_iff frame.line m).mpr hcond⟩

/-- Claim C4: `remap_class` returns the `original` field of the
ClassMapping stored under the queried obfuscated name and `none` when no
class is indexed under it; on the index built from the single
ArchTaskExecutor class record, `remap_class "a.a.a.a.c"` is the original
name and `remap_class "unknown"` is `none`. -/
theorem remap_class_spec :
    (∀ (self : ProguardMapper) (c : String) (cm : ClassMapping),
      mapLookup c self.classes = some cm → self.remap_class c = some cm.original) ∧
    (∀ (self : ProguardMapper) (c : String),
      mapLookup c self.classes = none → self.remap_class c = none) ∧
    archMapper.remap_class "a.a.a.a.c"
      = some "android.arch.core.executor.ArchTaskExecutor" ∧
    archMapper.remap_class "unknown" = none := by
  refine ⟨?_, ?_, ?_, ?_⟩
  · intro self c cm h
    simp [ProguardMapper.remap_class, h]
  · intro self c h
    simp [ProguardMapper.remap_class, h]
  · rfl
  · rfl

/-- Claim C8: `remap_stacktrace` is the line-by-line map over the input's
lines — a line the external parser rejects, or whose expansion is empty, is
emitted verbatim plus one terminator in input order, and a recognized frame
with a non-empty expansion is replaced by one `    at class.method(file:line)`
line per expanded frame, with the literal `<unknown>` when the frame has no
file (the right-hand side, `renderLineSpec`, is written after the spec's
words). -/
theorem remap_stacktrace_line_by_line :
    ∀ (self : ProguardMapper) (tp : String → Option StackFrame) (input : String),
      self.remap_stacktrace tp input
        = Except.ok (concatLines ((rustLines input).map (renderLineSpec self tp))) :=
  fun self tp input => remap_stacktrace_eq_ok self tp input

/-- Claim C9: `remap_stacktrace` always returns the success branch — the
only declared failure is a sink write failure, and the in-memory string
sink's writes never fail, so an output exists for every input. -/
theorem remap_stacktrace_total :
    ∀ (self : ProguardMapper) (tp : String → Option StackFrame) (input : String),
      ∃ out, self.remap_stacktrace tp input = Except.ok out :=
  fun self tp input => ⟨_, remap_stacktrace_eq_ok self tp input⟩

/-- Claim C1 (amended): for every frame yielded by `remap_frame` from a
matching member mapping `m` — both lookups succeed, `m` is in the member
vector and the skip test passes — if `m.original_endline` is absent
(inlined frame) the emitted line equals `m.original_startline` regardless
of the input line `L`; if `m.original_endline` is present (non-inlined)
the emitted line equals `m.original_startline + L - m.obf_startline`, and
the emitted file equals the input frame's file provided `m.original_class`
is absent (when `m.original_class` is present the code emits no file). -/
theorem remap_frame_emitted_line_file :
    ∀ (self : ProguardMapper) (frame : StackFrame) (cm : ClassMapping)
      (ms : List MemberMapping) (m : MemberMapping),
      mapLookup frame.cls self.classes = some cm →
      mapLookup frame.method cm.members = some ms →
      m ∈ ms →
      matchPred frame.line m = true →
      (remapMember { frame with cls := cm.original } m ∈ self.remap_frame frame ∧
        (m.original_endline = none →
          (remapMember { frame with cls := cm.original } m).line
            = m.original_startline) ∧
        (m.original_endline ≠ none →
          (remapMember { frame with cls := cm.original } m).line
              = m.original_startline + frame.line - m.startline ∧
          (m.original_class = none →
            (remapMember { frame with cls := cm.original } m).file = frame.file))) := by
  intro self frame cm ms m hc hm hmem hmatch
  refine ⟨?_, ?_, ?_⟩
  · rw [remap_frame_eq self frame cm ms hc hm, remapMembers_eq_filter_map]
    exact List.mem_map_of_mem _ (List.mem_filter.mpr ⟨hmem, hmatch⟩)
  · intro hoe
    simp [remapMember, hoe]
  · intro hoe
    cases hoe2 : m.original_endline with
    | none => exact absurd hoe2 hoe
    | some e =>
      refine ⟨by simp [remapMember, hoe2], ?_⟩
      intro hocl
      simp [remapMember, hocl]

/-- Witness for claim C1's theorem at the spec's scenario S2 instance. -/
theorem remap_frame_emitted_line_file_witness :
    mapLookup wFrame.cls wMapper.classes = some wClassM ∧
    mapLookup wFrame.method wClassM.members = some [wMember] ∧
    wMember ∈ [wMember] ∧
    matchPred wFrame.line wMember = true ∧
    (remapMember { wFrame with cls := wClassM.original } wMember
        ∈ wMapper.remap_frame wFrame ∧
      (wMember.original_endline = none →
        (remapMember { wFrame with cls := wClassM.original } wMember).line
          = wMember.original_startline) ∧
      (wMember.original_endline ≠ none →
        (remapMember { wFrame with cls := wClassM.original } wMember).line
            = wMember.original_startline + wFrame.line - wMember.startline ∧
        (wMember.original_class = none →
          (remapMember { wFrame with cls := wClassM.original } wMember).file
            = wFrame.file))) :=
  ⟨rfl, rfl, by simp, by decide,
    remap_frame_emitted_line_file wMapper wFrame wClassM [wMember] wMember
      rfl rfl (by simp) (by decide)⟩

/-- Counterexample to claim C1 as stated: in the mapper built from
`cexRecords` the single member under `("a.b", "c")` matches line 20 and has
`original_endline` present (`some 5`), yet the emitted frame's file is
`none` while the input frame's file is `some "Foo.java"` — the code
discards the file because `original_class` is present, contradicting the
claim that for a non-inlined member the emitted file equals the input
frame's file. -/
theorem remap_frame_noninlined_file_cex :
    mapLookup cexFrame.cls cexMapper.classes
        = some { original := "com.Foo", obfuscated := "a.b",
                 members := [("c", [cexMember])] } ∧
    cexMember.original_endline = some 5 ∧
    matchPred cexFrame.line cexMember = true ∧
    cexFrame.file = some "Foo.java" ∧
    cexMapper.remap_frame cexFrame
        = [{ cls := "com.Helper", method := "void helper()", file := none, line := 5 }] ∧
    ¬ (({ cls := "com.Helper", method := "void helper()", file := none,
          line := 5 } : StackFrame).file = cexFrame.file) := by
  decide

/-- Claim C3: for every frame yielded by `remap_frame` from a matching
member `m`: when `m.original_class` is present the emitted class equals it
and the emitted file is absent (foreign-class inlining); when absent the
emitted class equals the enclosing class's original name and the emitted
file equals the input frame's file unchanged; the emitted method always
equals `m.original_method`. -/
theorem remap_frame_class_file_method :
    ∀ (self : ProguardMapper) (frame : StackFrame) (cm : ClassMapping)
      (ms : List MemberMapping) (m : MemberMapping),
      mapLookup frame.cls self.classes = some cm →
      mapLookup frame.method cm.members = some ms →
      m ∈ ms →
      matchPred frame.line m = true →
      (remapMember { frame with cls := cm.original } m ∈ self.remap_frame frame ∧
        (remapMember { frame with cls := cm.original } m).method = m.original ∧
        (∀ oc, m.original_class = some oc →
          (remapMember { frame with cls := cm.original } m).cls = oc ∧
          (remapMember { frame with cls := cm.original } m).file = none) ∧
        (m.original_class = none →
          (remapMember { frame with cls := cm.original } m).cls = cm.original ∧
          (remapMember { frame with cls := cm.original } m).file = frame.file)) := by
  intro self frame cm ms m hc hm hmem hmatch
  refine ⟨?_, rfl, ?_, ?_⟩
  · rw [remap_frame_eq self frame cm ms hc hm, remapMembers_eq_filter_map]
    exact List.mem_map_of_mem _ (List.mem_filter.mpr ⟨hmem, hmatch⟩)
  · intro oc hocl
    exact ⟨by simp [remapMember, hocl], by simp [remapMember, hocl]⟩
  · intro hocl
    exact ⟨by simp [remapMember, hocl], by simp [remapMember, hocl]⟩

/-- Witness for claim C3's theorem at the spec's scenario S4 instance (a
foreign-class inlined member). -/
theorem remap_frame_class_file_method_witness :
    mapLookup wfFrame.cls wfMapper.classes = some wfClassM ∧
    mapLookup wfFrame.method wfClassM.members = some [wfMember] ∧
    wfMember ∈ [wfMember] ∧
    matchPred wfFrame.line wfMember = true ∧
    (remapMember { wfFrame with cls := wfClassM.original } wfMember
        ∈ wfMapper.remap_frame wfFrame ∧
      (remapMember { wfFrame with cls := wfClassM.original } wfMember).method
          = wfMember.original ∧
      (∀ oc, wfMember.original_class = some oc →
        (remapMember { wfFrame with cls := wfClassM.original } wfMember).cls = oc ∧
        (remapMember { wfFrame with cls := wfClassM.original } wfMember).file = none) ∧
      (wfMember.original_class = none →
        (remapMember { wfFrame with cls := wfClassM.original } wfMember).cls
            = wfClassM.original ∧
        (remapMember { wfFrame with cls := wfClassM.original } wfMember).file
            = wfFrame.file)) :=
  ⟨rfl, rfl, by simp, by decide,
    remap_frame_class_file_method wfMapper wfFrame wfClassM [wfMember] wfMember
      rfl rfl (by simp) (by decide)⟩

/-- Claim C5: during index construction every Method record produces a
MemberMapping whose line fields follow exactly three cases — absent
`line_mapping` gives the all-zero wildcard member with absent
`original_endline`; a `line_mapping` carrying `original_startline` gives
the obfuscated range `(startline, endline)` with the carried original
numbers (`original_endline` possibly absent); a `line_mapping` without
`original_startline` copies the obfuscated range as the original range
(`original_endline` present) — and the construction loop stores exactly
this member. -/
theorem member_line_fields_spec :
    (∀ (oc : Option String) (o : String),
      memberFromMethod oc o none
        = { startline := 0, endline := 0, original_class := oc, original := o,
            original_startline := 0, original_endline := none }) ∧
    (∀ (oc : Option String) (o : String) (lm : LineMapping) (os : Nat),
      lm.original_startline = some os →
      memberFromMethod oc o (some lm)
        = { startline := lm.startline, endline := lm.endline, original_class := oc,
            original := o, original_startline := os,
            original_endline := lm.original_endline }) ∧
    (∀ (oc : Option String) (o : String) (lm : LineMapping),
      lm.original_startline = none →
      memberFromMethod oc o (some lm)
        = { startline := lm.startline, endline := lm.endline, original_class := oc,
            original := o, original_startline := lm.startline,
            original_endline := some lm.endline }) ∧
    (∀ (classes : List (String × ClassMapping)) (cls : ClassMapping) (o ob : String)
      (oc : Option String) (lm : Option LineMapping),
      (step (classes, cls) (ProguardRecord.Method o ob oc lm)).2.members
        = pushMember ob (memberFromMethod oc o lm) cls.members) := by
  refine ⟨?_, ?_, ?_, ?_⟩
  · intro oc o
    rfl
  · intro oc o lm os h
    simp [memberFromMethod, h]
  · intro oc o lm h
    simp [memberFromMethod, h]
  · intro classes cls o ob oc lm
    rfl

/-- Claim C6: a Method record appends its member at the end of the vector
stored under its obfuscated method name — so the members under one name
appear in exactly record-stream order — leaving the finished classes and
every other method name untouched; and `remap_frame` emits the matching
members in that same vector order (the filter of the vector, mapped). -/
theorem member_order_spec :
    (∀ (classes : List (String × ClassMapping)) (cls : ClassMapping) (o ob : String)
      (oc : Option String) (lm : Option LineMapping),
      (step (classes, cls) (ProguardRecord.Method o ob oc lm)).1 = classes ∧
      mapLookup ob (step (classes, cls) (ProguardRecord.Method o ob oc lm)).2.members
        = some (((mapLookup ob cls.members).getD []) ++ [memberFromMethod oc o lm]) ∧
      (∀ k, k ≠ ob →
        mapLookup k (step (classes, cls) (ProguardRecord.Method o ob oc lm)).2.members
          = mapLookup k cls.members)) ∧
    (∀ (frame : StackFrame) (ms : List MemberMapping),
      remapMembers frame ms
        = (ms.filter (fun m => matchPred frame.line m)).map (remapMember frame)) := by
  constructor
  · intro classes cls o ob oc lm
    refine ⟨rfl, ?_, ?_⟩
    · exact mapLookup_pushMember_self ob _ cls.members
    · intro k hk
      exact mapLookup_pushMember_ne ob k hk _ cls.members
  · exact remapMembers_eq_filter_map

/-- Claim C7: when the record stream contains two Class records with the
same obfuscated name, the index holds the ClassMapping derived from the
later record — `remap_class` returns the later original name, and the
stored entry carries exactly the members of the later segment, the earlier
entry with its members having been replaced. -/
theorem class_overwrite_spec :
    ∀ (o1 o2 c : String) (ms1 ms2 : List ProguardRecord),
      methodsOnly ms1 = true → methodsOnly ms2 = true →
      o1 ≠ "" → o2 ≠ "" →
      ((ProguardMapper.new ((doubledStream o1 o2 c ms1 ms2).map Except.ok)).remap_class c
          = some o2 ∧
        mapLookup c
            (ProguardMapper.new ((doubledStream o1 o2 c ms1 ms2).map Except.ok)).classes
          = some { original := o2, obfuscated := c,
                   members := membersFold [] ms2 }) := by
  intro o1 o2 c ms1 ms2 h1 h2 ho1 ho2
  have base : List.foldl step ([], { original := "", obfuscated := "", members := [] })
      [ProguardRecord.Class o1 c]
      = ([], { original := o1, obfuscated := c, members := [] }) := by
    simp [step]
  have hcls2 : step ([], { original := o1, obfuscated := c, members := membersFold [] ms1 })
      (ProguardRecord.Class o2 c)
      = ([(c, { original := o1, obfuscated := c, members := membersFold [] ms1 })],
         { original := o2, obfuscated := c, members := [] }) := by
    simp [step, ho1, insertMap]
  have hfold : List.foldl step ([], { original := "", obfuscated := "", members := [] })
      (doubledStream o1 o2 c ms1 ms2)
      = ([(c, { original := o1, obfuscated := c, members := membersFold [] ms1 })],
         { original := o2, obfuscated := c, members := membersFold [] ms2 }) := by
    unfold doubledStream
    rw [List.foldl_append, List.foldl_append, List.foldl_append, base,
      foldl_step_methodsOnly ms1 [] { original := o1, obfuscated := c, members := [] } h1,
      List.foldl_cons, List.foldl_nil, hcls2,
      foldl_step_methodsOnly ms2 _ { original := o2, obfuscated := c, members := [] } h2]
  have key : mapLookup c
      (ProguardMapper.new ((doubledStream o1 o2 c ms1 ms2).map Except.ok)).classes
      = some { original := o2, obfuscated := c, members := membersFold [] ms2 } := by
    unfold ProguardMapper.new
    rw [filterMap_toOption_map_ok, hfold]
    unfold flushClass
    simp only [ho2, if_neg]
    exact mapLookup_insertMap_self c _ _
  refine ⟨?_, key⟩
  unfold ProguardMapper.remap_class
  rw [key]
  rfl

/-- Witness for claim C7's theorem: an empty first segment and a one-method
second segment under classes `com.A` and `com.B`, both obfuscated to `c`. -/
theorem class_overwrite_spec_witness :
    methodsOnly ([] : List ProguardRecord) = true ∧
    methodsOnly w7ms2 = true ∧
    ("com.A" : String) ≠ "" ∧
    ("com.B" : String) ≠ "" ∧
    ((ProguardMapper.new ((doubledStream "com.A" "com.B" "c" [] w7ms2).map Except.ok)).remap_class "c"
        = some "com.B" ∧
      mapLookup "c"
          (ProguardMapper.new ((doubledStream "com.A" "com.B" "c" [] w7ms2).map Except.ok)).classes
        = some { original := "com.B", obfuscated := "c",
                 members := membersFold [] w7ms2 }) :=
  ⟨rfl, rfl, by decide, by decide,
    class_overwrite_spec "com.A" "com.B" "c" [] w7ms2 rfl rfl (by decide) (by decide)⟩

/-- Claim C10: under the precondition that every member with
`obf_endline = 0` has `obf_startline = 0` or an absent `original_endline`,
the subtraction in the non-inlined branch never underflows — when that
branch is reached (the skip test passed and `original_endline` is present),
the match predicate has established `obf_startline ≤ L` whenever
`obf_endline > 0`, so `obf_startline ≤ original_startline + L` and the
truncated subtraction is exact; and the wildcard member built from an
absent `line_mapping` has `startline = 0` and an absent `original_endline`,
so it takes the inlined branch. -/
theorem remap_no_underflow :
    ∀ (m : MemberMapping) (L : Nat),
      (m.endline = 0 → m.startline = 0 ∨ m.original_endline = none) →
      matchPred L m = true →
      m.original_endline ≠ none →
      (((0 < m.endline → m.startline ≤ L) ∧
        m.startline ≤ m.original_startline + L ∧
        m.original_startline + L - m.startline + m.startline
          = m.original_startline + L) ∧
       (∀ (oc : Option String) (o : String),
         (memberFromMethod oc o none).startline = 0 ∧
         (memberFromMethod oc o none).original_endline = none)) := by
  intro m L h1 h2 h3
  rw [matchPred_true_iff] at h2
  rcases h2 with h0 | hr
  · rcases h1 h0 with hz | hoe
    · exact ⟨⟨by omega, by omega, by omega⟩, fun oc o => ⟨rfl, rfl⟩⟩
    · exact absurd hoe h3
  · exact ⟨⟨fun _ => hr.1, by omega, by omega⟩, fun oc o => ⟨rfl, rfl⟩⟩

/-- Witness for claim C10's theorem at the S2 member and input line 4. -/
theorem remap_no_underflow_witness :
    (wMember.endline = 0 → wMember.startline = 0 ∨ wMember.original_endline = none) ∧
    matchPred 4 wMember = true ∧
    wMember.original_endline ≠ none ∧
    (((0 < wMember.endline → wMember.startline ≤ 4) ∧
      wMember.startline ≤ wMember.original_startline + 4 ∧
      wMember.original_startline + 4 - wMember.startline + wMember.startline
        = wMember.original_startline + 4) ∧
     (∀ (oc : Option String) (o : String),
       (memberFromMethod oc o none).startline = 0 ∧
       (memberFromMethod oc o none).original_endline = none)) :=
  ⟨by decide, by decide, by decide,
    remap_no_underflow wMember 4 (by decide) (by decide) (by decide)⟩
